import Mathlib

/-! Shallow embedding of the Power BI documentation agent
(`src/ai-powerbi-agent.py`) and verification of its specification.

The remote model store, the reasoning service, git and the filesystem are
modelled as explicit state threaded through the embedded functions; uncaught
Python exceptions are modelled with `Except`, keeping the world state on
error (side effects performed before a raise persist). -/

namespace PBI

/-- Calendar timestamp at second granularity, the precision of both
strftime formats used by the source (backup directory names and changelog
headers). -/
structure DateTime where
  year : Nat
  month : Nat
  day : Nat
  hour : Nat
  minute : Nat
  second : Nat
deriving DecidableEq, Repr

def digCh (n : Nat) : Char := Char.ofNat (48 + n % 10)

def pad2 (n : Nat) : String := String.mk [digCh (n / 10), digCh n]

def pad4 (n : Nat) : String :=
  String.mk [digCh (n / 1000), digCh (n / 100), digCh (n / 10), digCh n]

/-- strftime `%Y%m%d_%H%M%S`, used for backup directory names. -/
def fmtCompact (t : DateTime) : String :=
  pad4 t.year ++ pad2 t.month ++ pad2 t.day ++ "_" ++
    pad2 t.hour ++ pad2 t.minute ++ pad2 t.second

/-- strftime `%Y-%m-%d %H:%M:%S`, used in the changelog header. -/
def fmtHuman (t : DateTime) : String :=
  pad4 t.year ++ "-" ++ pad2 t.month ++ "-" ++ pad2 t.day ++ " " ++
    pad2 t.hour ++ ":" ++ pad2 t.minute ++ ":" ++ pad2 t.second

/-- A measure annotation (key, value). -/
structure Annot where
  key : String
  value : String
deriving DecidableEq, Repr

/-- A measure of the remote model, as held by the server.  The listing
operation returns these records; the Get operation reads `expression`. -/
structure Measure where
  tableName : String
  name : String
  description : String
  displayFolder : String
  expression : String
  annots : List Annot
deriving DecidableEq, Repr

/-- Server-side state of the connected semantic model. -/
structure Store where
  measures : List Measure
deriving DecidableEq, Repr

/-- A reasoning-service reply: either text that `json.loads` rejects, or a
parsed JSON object whose fields are strings. -/
inductive SvcResp
| malformed
| json (fields : List (String × String))
deriving DecidableEq, Repr

/-- Uncaught Python exceptions relevant to the agent. -/
inductive Err
| parseError
| keyError (k : String)
| notFound (tableName name : String)
| updateError (tableName name : String)
deriving DecidableEq, Repr

/-- Python `json.loads` on a service reply: raises on malformed text,
otherwise yields the parsed object.  No key validation happens here. -/
def jsonLoads : SvcResp → Except Err (List (String × String))
| .malformed => .error .parseError
| .json fields => .ok fields

/-- First binding of a key in a parsed JSON object. -/
def getField (fields : List (String × String)) (k : String) : Option String :=
  (fields.find? (fun p => p.1 == k)).map (fun p => p.2)

/-- Python `d[k]`: `KeyError` when the key is absent. -/
def getItem (fields : List (String × String)) (k : String) : Except Err String :=
  match getField fields k with
  | some v => .ok v
  | none => .error (.keyError k)

/-- Python `d.get(k, dflt)`: silent default when the key is absent. -/
def getD (fields : List (String × String)) (k dflt : String) : String :=
  (getField fields k).getD dflt

/-- Filesystem paths as component lists (the source uses `pathlib` joins). -/
abbrev FPath := List String

/-- The on-disk state: a path-indexed file map (later bindings shadow
earlier ones) plus the set of created directories. -/
structure FileSys where
  files : List (FPath × String)
  dirs : List FPath
deriving DecidableEq, Repr

def fsLookup (fs : FileSys) (p : FPath) : Option String :=
  (fs.files.find? (fun e => e.1 == p)).map (fun e => e.2)

def fsSet (fs : FileSys) (p : FPath) (c : String) : FileSys :=
  { fs with files := (p, c) :: fs.files }

/-- One `f.write(chunk)` on a file opened with mode `w`. -/
def fsAppendFile (fs : FileSys) (p : FPath) (chunk : String) : FileSys :=
  fsSet fs p (((fsLookup fs p).getD "") ++ chunk)

/-- `Path.mkdir(parents=True, exist_ok=True)`: never raises. -/
def mkdirP (fs : FileSys) (p : FPath) : FileSys :=
  { fs with dirs := p :: fs.dirs }

def treeKeys (fs : FileSys) (src : FPath) : List FPath :=
  ((fs.files.map (fun e => e.1)).filter (fun k => src.isPrefixOf k)).dedup

/-- `shutil.copytree(src, dst, dirs_exist_ok=True)`: every file under `src`
is rewritten under `dst`, contents read from the pre-copy state; an existing
destination is written into rather than rejected. -/
def copytree (fs : FileSys) (src dst : FPath) : FileSys :=
  (treeKeys fs src).foldl
    (fun acc k => fsSet acc (dst ++ k.drop src.length) ((fsLookup fs k).getD ""))
    (mkdirP fs dst)

/-- Invocations forwarded to the version-control layer. -/
inductive GitOp
| add (pathspec : String)
| commit (msg : Option String)
deriving DecidableEq, Repr

/-- The git history the agent reads: the trees of the two most recent
commits (`HEAD~1` and `HEAD`). -/
structure GitRepoState where
  headM1 : List (FPath × String)
  headFiles : List (FPath × String)
deriving DecidableEq, Repr

/-- Session and transport lifecycle events, in program order. -/
inductive Ev
| openTransport
| openSession
| initSession
| callTool (tool op : String)
| closeSession
| closeTransport
deriving DecidableEq, Repr

/-- The whole observable state threaded through a run. -/
structure World where
  store : Store
  fsys : FileSys
  git : GitRepoState
  gitOps : List GitOp
  clock : Nat → DateTime
  clockPos : Nat
  events : List Ev

/-- External collaborators, fixed for a run: the reasoning service (keyed by
the full prompt), the git diff primitive, the TMDL serializer used by the
export operation (paths relative to the definition folder), fault switches
for the remote Get and Update calls, and the process working directory. -/
structure Env where
  svcMeasure : String → SvcResp
  svcChange : String → SvcResp
  diffFn : List (FPath × String) → List (FPath × String) → String
  serialize : Store → List (FPath × String)
  fetchFails : String → String → Bool
  updateFails : String → String → Bool
  cwd : FPath

def logEv (w : World) (e : Ev) : World := { w with events := w.events ++ [e] }

/-- One `datetime.now()` read. -/
def now (w : World) : DateTime × World :=
  (w.clock w.clockPos, { w with clockPos := w.clockPos + 1 })

/-- The fixed measure-analysis prompt template with name and DAX embedded
verbatim. -/
def measurePrompt (measureName daxExpression : String) : String :=
  "Analyze this Power BI DAX measure and provide:\n1. A concise business description (1-2 sentences)\n2. Technical explanation of the logic\n3. Any potential issues or improvements\n4. Suggested display folder categorization\n\nMeasure Name: " ++
    measureName ++ "\nDAX Expression:\n" ++ daxExpression ++
    "\n\nReturn as JSON with keys: description, technical_notes, issues, display_folder"

/-- The fixed change-analysis prompt template with the diff embedded
verbatim. -/
def changePrompt (diffContent : String) : String :=
  "Analyze these Power BI TMDL file changes and create:\n1. A human-readable changelog summary\n2. Impact assessment (what reports/measures are affected)\n3. Suggested git commit message\n\nChanges:\n" ++
    diffContent ++ "\n\nReturn as JSON with keys: changelog, impact, commit_message"

/-- `analyze_measure_with_ai`: one service request, reply passed through
`json.loads`. -/
def analyze_measure_with_ai (env : Env) (measureName daxExpression : String) :
    Except Err (List (String × String)) :=
  jsonLoads (env.svcMeasure (measurePrompt measureName daxExpression))

/-- `analyze_tmdl_changes`: one service request, reply passed through
`json.loads`. -/
def analyze_tmdl_changes (env : Env) (diffContent : String) :
    Except Err (List (String × String)) :=
  jsonLoads (env.svcChange (changePrompt diffContent))

/-- Server lookup backing the Get operation. -/
def lookupMeasure (s : Store) (t n : String) : Option Measure :=
  s.measures.find? (fun m => m.tableName == t && m.name == n)

/-- Server effect of the Update operation: the supplied fields of the
addressed measure change, everything else is untouched. -/
def applyUpdate (s : Store) (t n desc df : String) (ann : List Annot) : Store :=
  { measures := s.measures.map (fun m =>
      if m.tableName == t && m.name == n then
        { m with description := desc, displayFolder := df, annots := ann }
      else m) }

/-- `connect_to_model`: opens the stdio transport and the client session,
connects to the TMDL folder, and returns the session object from inside the
two `async with` blocks — so both close events fire before the caller ever
sees the handle. -/
def connect_to_model (w : World) : World :=
  { w with events := w.events ++
      [Ev.openTransport, Ev.openSession, Ev.initSession,
       Ev.callTool "powerbi-model_connection_operations" "ConnectFolder",
       Ev.closeSession, Ev.closeTransport] }

/-- The body of the `for measure in measures` loop of
`auto_document_measures`, iterating the listing snapshot while the server
store evolves.  There is no try/except: the first raised exception
propagates, discarding the accumulated result list. -/
def docLoop (env : Env) :
    List Measure → World → List (String × String) →
      World × Except Err (List (String × String))
| [], w, acc => (w, .ok acc)
| m :: rest, w, acc =>
  if m.description == "" then
    let w1 := logEv w (Ev.callTool "powerbi-model_measure_operations" "Get")
    if env.fetchFails m.tableName m.name then
      (w1, .error (.notFound m.tableName m.name))
    else
      match lookupMeasure w1.store m.tableName m.name with
      | none => (w1, .error (.notFound m.tableName m.name))
      | some detail =>
        match analyze_measure_with_ai env m.name detail.expression with
        | .error e => (w1, .error e)
        | .ok a =>
          match getItem a "description" with
          | .error e => (w1, .error e)
          | .ok desc =>
            let df := getD a "display_folder" ""
            match getItem a "technical_notes" with
            | .error e => (w1, .error e)
            | .ok tn =>
              let w2 := logEv w1 (Ev.callTool "powerbi-model_measure_operations" "Update")
              if env.updateFails m.tableName m.name then
                (w2, .error (.updateError m.tableName m.name))
              else
                let ann := [Annot.mk "AI_Generated_Docs" "true", Annot.mk "Technical_Notes" tn]
                let s3 := applyUpdate w2.store m.tableName m.name desc df ann
                docLoop env rest { w2 with store := s3 } (acc ++ [(m.name, desc)])
  else docLoop env rest w acc

/-- `auto_document_measures`: list all measures, then document every
measure whose description is falsy. -/
def auto_document_measures (env : Env) (w : World) :
    World × Except Err (List (String × String)) :=
  let w1 := logEv w (Ev.callTool "powerbi-model_measure_operations" "List")
  docLoop env w1.store.measures w1 []

/-- The concatenation of the exact chunks `create_backup_with_changelog`
writes into `CHANGELOG.md`, in program order: timestamp header, changes
summary, impact assessment, and the diff fenced as a literal block. -/
def changelogDoc (t : DateTime) (changelogTxt impactTxt diffContent : String) : String :=
  "# Model Backup - " ++ fmtHuman t ++ "\n\n" ++
    "## Changes Summary\n\n" ++ changelogTxt ++ "\n\n" ++
    "## Impact Assessment\n\n" ++ impactTxt ++ "\n\n" ++
    "## Technical Details\n\n" ++ "```\n" ++ diffContent ++ "\n```\n"

/-- `create_backup_with_changelog`: diffs the two most recent commits,
short-circuits on an empty diff, otherwise analyzes the diff, creates the
timestamped backup directory, copies the definition tree, and writes the
changelog chunk by chunk (a missing analysis key raises mid-write). -/
def create_backup_with_changelog (env : Env) (w : World) :
    World × Except Err (Option String) :=
  let diffContent := env.diffFn w.git.headM1 w.git.headFiles
  if diffContent = "" then (w, .ok none)
  else
    match analyze_tmdl_changes env diffContent with
    | .error e => (w, .error e)
    | .ok analysis =>
      let p1 := now w
      let backupDir := env.cwd ++ ["backups", fmtCompact p1.1]
      let w2 := { p1.2 with fsys := mkdirP p1.2.fsys backupDir }
      let srcTree := env.cwd ++ ["Dataset.SemanticModel", "definition"]
      let f3 := copytree w2.fsys srcTree (backupDir ++ ["definition"])
      let w3 := { w2 with fsys := f3 }
      let clPath := backupDir ++ ["CHANGELOG.md"]
      let w4 := { w3 with fsys := fsSet w3.fsys clPath "" }
      let p2 := now w4
      let headerChunk := "# Model Backup - " ++ fmtHuman p2.1 ++ "\n\n"
      let w5 := { p2.2 with fsys := fsAppendFile p2.2.fsys clPath headerChunk }
      let w6 := { w5 with fsys := fsAppendFile w5.fsys clPath "## Changes Summary\n\n" }
      match getItem analysis "changelog" with
      | .error e => (w6, .error e)
      | .ok cl =>
        let w7 := { w6 with fsys := fsAppendFile w6.fsys clPath (cl ++ "\n\n") }
        let w8 := { w7 with fsys := fsAppendFile w7.fsys clPath "## Impact Assessment\n\n" }
        match getItem analysis "impact" with
        | .error e => (w8, .error e)
        | .ok imp =>
          let w9 := { w8 with fsys := fsAppendFile w8.fsys clPath (imp ++ "\n\n") }
          let w10 := { w9 with fsys := fsAppendFile w9.fsys clPath "## Technical Details\n\n" }
          let fenceChunk := "```\n" ++ diffContent ++ "\n```\n"
          let w11 := { w10 with fsys := fsAppendFile w10.fsys clPath fenceChunk }
          match getItem analysis "commit_message" with
          | .error e => (w11, .error e)
          | .ok cm => (w11, .ok (some cm))

/-- The model path literal of `main`, as components. -/
def modelPathC : FPath :=
  ["c:", "Users", "Dell", "Documents", "Payroll Engine BI",
   "payrollengine-powerbi-repo", "Dataset.SemanticModel"]

/-- The `ExportToTmdlFolder` call of `main`: the server serializes the live
model into the definition folder of the model path. -/
def exportModel (env : Env) (w : World) : World :=
  let w1 := logEv w (Ev.callTool "powerbi-model_database_operations" "ExportToTmdlFolder")
  let f2 := (env.serialize w1.store).foldl
    (fun acc e => fsSet acc ((modelPathC ++ ["definition"]) ++ e.1) e.2) w1.fsys
  { w1 with fsys := f2 }

/-- The `main` coroutine: connect, document, export, back up, then stage
and commit — the last two unconditionally, with whatever
`create_backup_with_changelog` returned as the message. -/
def main (env : Env) (w : World) : World × Except Err (Option String) :=
  let w1 := connect_to_model w
  let p := auto_document_measures env w1
  match p.2 with
  | .error e => (p.1, .error e)
  | .ok _documented =>
    let w3 := exportModel env p.1
    let q := create_backup_with_changelog env w3
    match q.2 with
    | .error e => (q.1, .error e)
    | .ok commitMsg =>
      let w5 := { q.1 with gitOps := q.1.gitOps ++ [GitOp.add ".", GitOp.commit commitMsg] }
      (w5, .ok commitMsg)

/-- The filesystem produced by a successful backup creation, as an explicit
chain: mkdir, recursive tree copy, then the changelog written chunk by
chunk. -/
def finalFS (env : Env) (w : World) (cl imp : String) : FileSys :=
  let dc := env.diffFn w.git.headM1 w.git.headFiles
  let bd := env.cwd ++ ["backups", fmtCompact (w.clock w.clockPos)]
  let src := env.cwd ++ ["Dataset.SemanticModel", "definition"]
  let clp := bd ++ ["CHANGELOG.md"]
  let t2 := w.clock (w.clockPos + 1)
  let fs2 := copytree (mkdirP w.fsys bd) src (bd ++ ["definition"])
  let fs3 := fsSet fs2 clp ""
  let fs4 := fsAppendFile fs3 clp ("# Model Backup - " ++ fmtHuman t2 ++ "\n\n")
  let fs5 := fsAppendFile fs4 clp "## Changes Summary\n\n"
  let fs6 := fsAppendFile fs5 clp (cl ++ "\n\n")
  let fs7 := fsAppendFile fs6 clp "## Impact Assessment\n\n"
  let fs8 := fsAppendFile fs7 clp (imp ++ "\n\n")
  let fs9 := fsAppendFile fs8 clp "## Technical Details\n\n"
  fsAppendFile fs9 clp ("```\n" ++ dc ++ "\n```\n")

/-- The world produced by a successful backup creation: the final
filesystem and two clock reads consumed. -/
def finalWorld (env : Env) (w : World) (cl imp : String) : World :=
  { w with fsys := finalFS env w cl imp, clockPos := w.clockPos + 2 }

/-- The fate of one undocumented measure in the loop body, as determined by
the environment and the listing snapshot: the value written on success, or
the exception raised at the first failing step. -/
def stepRes (env : Env) (m : Measure) : Except Err (String × String × String) :=
  if env.fetchFails m.tableName m.name then .error (.notFound m.tableName m.name)
  else
    match analyze_measure_with_ai env m.name m.expression with
    | .error e => .error e
    | .ok a =>
      match getItem a "description" with
      | .error e => .error e
      | .ok desc =>
        match getItem a "technical_notes" with
        | .error e => .error e
        | .ok tn =>
          if env.updateFails m.tableName m.name then
            .error (.updateError m.tableName m.name)
          else .ok (desc, getD a "display_folder" "", tn)

/-- The description written for a measure on a successful pass. -/
def descOf (env : Env) (m : Measure) : String :=
  match stepRes env m with
  | .ok r => r.1
  | .error _ => ""

/-- The post-run value of one measure: untouched when already documented or
when its pass fails, otherwise updated with the analysis output. -/
def docIfUndoc (env : Env) (m : Measure) : Measure :=
  if m.description == "" then
    match stepRes env m with
    | .ok r =>
      let ann := [Annot.mk "AI_Generated_Docs" "true", Annot.mk "Technical_Notes" r.2.2]
      { m with description := r.1, displayFolder := r.2.1, annots := ann }
    | .error _ => m
  else m

/-- The world after one successful documentation pass over measure `m`:
the Get and Update tool-call events plus the server-side update. -/
def stepWorld (w : World) (m : Measure) (d df tn : String) : World :=
  let ev2 := (w.events ++ [Ev.callTool "powerbi-model_measure_operations" "Get"]) ++
    [Ev.callTool "powerbi-model_measure_operations" "Update"]
  let s2 := applyUpdate w.store m.tableName m.name d df
    [Annot.mk "AI_Generated_Docs" "true", Annot.mk "Technical_Notes" tn]
  { w with store := s2, events := ev2 }

/-- The measure record after a successful documentation pass wrote
description, display folder and the two fixed annotations. -/
def docMeasure (m : Measure) (d df tn : String) : Measure :=
  { m with
    description := d
    displayFolder := df
    annots := [Annot.mk "AI_Generated_Docs" "true", Annot.mk "Technical_Notes" tn] }

def mkey (m : Measure) : String × String := (m.tableName, m.name)

/-- No two measures share a (table, name) identity. -/
def KeyedDistinct (l : List Measure) : Prop :=
  l.Pairwise (fun a b => mkey a ≠ mkey b)

def isCall : Ev → Bool
| .callTool _ _ => true
| _ => false

/-- Whether some tool call happens after the first session-close event. -/
def usesSessionAfterClose (evs : List Ev) : Bool :=
  ((evs.dropWhile (fun e => e != Ev.closeSession)).drop 1).any isCall

/-- Modelled from the spec: the change set that, per §2 and §4.4, the audit
pipeline observes — the difference between the pre-run on-disk definition
tree and the freshly exported one.  (The source instead diffs the two most
recent commits; this definition exists to compare the two.) -/
def defnTreeFiles (fs : FileSys) : List (FPath × String) :=
  fs.files.filter (fun e => (modelPathC ++ ["definition"]).isPrefixOf e.1)

/-- Modelled from the spec: see `defnTreeFiles`. -/
def spec_changeSet (env : Env) (pre post : World) : String :=
  env.diffFn (defnTreeFiles pre.fsys) (defnTreeFiles post.fsys)

/-! Concrete scenarios used as witnesses and counterexamples. -/

def t0 : DateTime := ⟨2025, 1, 2, 3, 4, 5⟩

/-- One second after `t0`. -/
def t1s : DateTime := ⟨2025, 1, 2, 3, 4, 6⟩

def baseWorld (s : Store) (fs : FileSys) (g : GitRepoState) (c : Nat → DateTime) : World :=
  ⟨s, fs, g, [], c, 0, []⟩

def envBase : Env :=
  { svcMeasure := fun _ => SvcResp.malformed
    svcChange := fun _ => SvcResp.malformed
    diffFn := fun _ _ => ""
    serialize := fun _ => []
    fetchFails := fun _ _ => false
    updateFails := fun _ _ => false
    cwd := ["repo"] }

def goodMeasureResp : SvcResp :=
  SvcResp.json [("description", "D"), ("technical_notes", "T"), ("display_folder", "F")]

def emptyFS : FileSys := ⟨[], []⟩

def emptyGit : GitRepoState := ⟨[], []⟩

/-- Scenario for C1: two undocumented measures, only the first one's Update
call is rejected by the server. -/
def env1 : Env :=
  { envBase with
    svcMeasure := fun _ => goodMeasureResp
    updateFails := fun t n => t == "Sales" && n == "M1" }

def w1c : World :=
  baseWorld ⟨[⟨"Sales", "M1", "", "", "SUM(x)", []⟩, ⟨"Sales", "M2", "", "", "SUM(y)", []⟩]⟩
    emptyFS emptyGit (fun _ => t0)

/-- Scenario for C2: nothing to document and an empty diff. -/
def env2 : Env := envBase

def w2c : World := baseWorld ⟨[]⟩ emptyFS emptyGit (fun _ => t0)

/-- Scenario for C3: the reasoning service returns an empty description. -/
def env3 : Env :=
  { envBase with
    svcMeasure := fun _ => SvcResp.json [("description", ""), ("technical_notes", "T")] }

def w3c : World :=
  baseWorld ⟨[⟨"Sales", "M1", "", "", "SUM(x)", []⟩]⟩ emptyFS emptyGit (fun _ => t0)

/-- Scenario for the C3 witness: a documented and an undocumented measure,
with a non-empty generated description. -/
def env3w : Env := { envBase with svcMeasure := fun _ => goodMeasureResp }

def w3w : World :=
  baseWorld ⟨[⟨"Sales", "M0", "kept", "", "SUM(z)", []⟩, ⟨"Sales", "M1", "", "", "SUM(x)", []⟩]⟩
    emptyFS emptyGit (fun _ => t0)

/-- The one on-disk definition file of the C4 scenario. -/
def defnFile : FPath := modelPathC ++ ["definition", "model.tmdl"]

/-- Scenario for C4: the last two commits are identical (empty committed
diff) while this run's documentation pass changes the exported tree. -/
def env4 : Env :=
  { envBase with
    svcMeasure := fun _ => goodMeasureResp
    diffFn := fun a b => if a = b then "" else "delta"
    serialize := fun s => [(["model.tmdl"], String.join (s.measures.map (fun m => m.description)))] }

def w4 : World :=
  baseWorld ⟨[⟨"S", "M1", "", "", "EXPR", []⟩]⟩ ⟨[(defnFile, "")], []⟩
    ⟨[(defnFile, "")], [(defnFile, "")]⟩ (fun _ => t0)

/-- Scenario for C5: valid JSON that lacks the expected keys
display_folder and issues. -/
def a5 : List (String × String) := [("description", "Total sales"), ("technical_notes", "sums")]

def env5 : Env := { envBase with svcMeasure := fun _ => SvcResp.json a5 }

def w5 : World :=
  baseWorld ⟨[⟨"Sales", "M1", "", "", "SUM(x)", []⟩]⟩ emptyFS emptyGit (fun _ => t0)

def m5doc : Measure :=
  ⟨"Sales", "M1", "Total sales", "", "SUM(x)",
    [⟨"AI_Generated_Docs", "true"⟩, ⟨"Technical_Notes", "sums"⟩]⟩

/-- Scenario for the C5 witness: a malformed reply on both adapters. -/
def env5m : Env := { envBase with diffFn := fun _ _ => "d" }

def w5m : World := baseWorld ⟨[]⟩ emptyFS emptyGit (fun _ => t0)

/-- Scenario for C6 witness. -/
def env6 : Env := envBase

def w6 : World := baseWorld ⟨[]⟩ emptyFS emptyGit (fun _ => t0)

/-- Scenario for C7: one undocumented measure, successful run. -/
def env7 : Env := { envBase with svcMeasure := fun _ => goodMeasureResp }

def w7 : World :=
  baseWorld ⟨[⟨"S", "M1", "", "", "EXPR", []⟩]⟩ emptyFS emptyGit (fun _ => t0)

/-- Scenario for C8: a snapshot directory from a previous run in the very
same second already exists, holding a changelog. -/
def env8 : Env :=
  { envBase with
    svcChange := fun _ => SvcResp.json [("changelog", "NEWCL"), ("impact", "I"), ("commit_message", "CM")]
    diffFn := fun _ _ => "dd" }

def d8 : FPath := ["repo", "backups", fmtCompact t0]

def w8 : World :=
  baseWorld ⟨[]⟩
    ⟨[(d8 ++ ["CHANGELOG.md"], "OLD"), (["repo", "Dataset.SemanticModel", "definition", "model.tmdl"], "v")], [d8]⟩
    emptyGit (fun _ => t0)

/-- Scenario for C9: a fresh backup area, the working directory resolving
the relative copy source to the configured model definition tree. -/
def cwd9 : FPath :=
  ["c:", "Users", "Dell", "Documents", "Payroll Engine BI", "payrollengine-powerbi-repo"]

def env9 : Env :=
  { envBase with
    svcChange := fun _ => SvcResp.json [("changelog", "CL"), ("impact", "IM"), ("commit_message", "CM")]
    diffFn := fun _ _ => "dd"
    cwd := cwd9 }

def srcFile9 : FPath := modelPathC ++ ["definition", "model.tmdl"]

def w9 : World :=
  baseWorld ⟨[]⟩ ⟨[(srcFile9, "contents")], []⟩ emptyGit (fun _ => t0)

/-- Scenario for C10: the two clock reads of one backup creation fall in
adjacent seconds. -/
def env10 : Env := env8

def w10 : World :=
  baseWorld ⟨[]⟩ emptyFS emptyGit (fun k => if k = 0 then t0 else t1s)

/-! Theorems. -/

/-- Unpacking a successful per-measure pass. -/
lemma stepRes_ok_elim (env : Env) (m : Measure) (d df tn : String)
    (h : stepRes env m = Except.ok (d, df, tn)) :
    env.fetchFails m.tableName m.name = false ∧
    env.updateFails m.tableName m.name = false ∧
    ∃ a, analyze_measure_with_ai env m.name m.expression = Except.ok a ∧
      getItem a "description" = Except.ok d ∧
      getItem a "technical_notes" = Except.ok tn ∧
      getD a "display_folder" "" = df := by
  unfold stepRes at h
  split at h
  · exact absurd h (by simp)
  · rename_i hf
    split at h
    · exact absurd h (by simp)
    · rename_i a ha
      split at h
      · exact absurd h (by simp)
      · rename_i d0 hd0
        split at h
        · exact absurd h (by simp)
        · rename_i tn0 htn0
          split at h
          · exact absurd h (by simp)
          · rename_i hu
            simp only [Except.ok.injEq, Prod.mk.injEq] at h
            obtain ⟨h1, h2, h3⟩ := h
            refine ⟨by simpa using hf, by simpa using hu, a, ha, h1 ▸ hd0, h3 ▸ htn0, h2⟩

/-- With pairwise-distinct keys, the server lookup of a listed measure
returns that very measure. -/
lemma find?_key_self : ∀ (l : List Measure),
    l.Pairwise (fun a b => mkey a ≠ mkey b) →
    ∀ m ∈ l, l.find? (fun x => x.tableName == m.tableName && x.name == m.name) = some m := by
  intro l
  induction l with
  | nil => intro _ m hm; cases hm
  | cons h t ih =>
    intro hp m hm
    rw [List.pairwise_cons] at hp
    rcases List.mem_cons.mp hm with rfl | hmt
    · rw [List.find?_cons_of_pos _ (by simp)]
    · rw [List.find?_cons_of_neg, ih hp.2 m hmt]
      have hk := hp.1 m hmt
      simp only [mkey, ne_eq, Prod.mk.injEq, not_and] at hk
      simp only [Bool.and_eq_true, beq_iff_eq, not_and]
      exact hk

lemma lookupMeasure_self (s : Store) (m : Measure) (hd : KeyedDistinct s.measures)
    (hm : m ∈ s.measures) : lookupMeasure s m.tableName m.name = some m :=
  find?_key_self s.measures hd m hm

/-- One successful loop iteration over an undocumented measure. -/
lemma docLoop_cons_ok (env : Env) (m : Measure) (rest : List Measure) (w : World)
    (acc : List (String × String)) (d df tn : String)
    (hundoc : (m.description == "") = true)
    (hlook : lookupMeasure w.store m.tableName m.name = some m)
    (hstep : stepRes env m = Except.ok (d, df, tn)) :
    docLoop env (m :: rest) w acc
      = docLoop env rest (stepWorld w m d df tn) (acc ++ [(m.name, d)]) := by
  obtain ⟨hf, hu, a, ha, hd1, htn, hdf⟩ := stepRes_ok_elim env m d df tn hstep
  conv_lhs => rw [docLoop]
  simp only [hundoc, if_true, logEv, hf, Bool.false_eq_true, if_false, hlook, ha, hd1,
    htn, hu, stepWorld, hdf]

/-- One failing loop iteration over an undocumented measure: the exception
escapes. -/
lemma docLoop_cons_err (env : Env) (m : Measure) (rest : List Measure) (w : World)
    (acc : List (String × String)) (e : Err)
    (hundoc : (m.description == "") = true)
    (hlook : lookupMeasure w.store m.tableName m.name = some m)
    (hstep : stepRes env m = Except.error e) :
    (docLoop env (m :: rest) w acc).2 = Except.error e := by
  unfold stepRes at hstep
  conv_lhs => rw [docLoop]
  simp only [hundoc, if_true, logEv, hlook]
  by_cases hf : env.fetchFails m.tableName m.name
  · simp [hf] at hstep ⊢
    exact hstep
  · simp only [hf, Bool.false_eq_true, if_false] at hstep ⊢
    cases ha : analyze_measure_with_ai env m.name m.expression with
    | error e2 =>
      simp [ha] at hstep ⊢
      exact hstep
    | ok a =>
      simp only [ha] at hstep ⊢
      cases hd1 : getItem a "description" with
      | error e2 =>
        simp [hd1] at hstep ⊢
        exact hstep
      | ok d =>
        simp only [hd1] at hstep ⊢
        cases htn : getItem a "technical_notes" with
        | error e2 =>
          simp [htn] at hstep ⊢
          exact hstep
        | ok tn =>
          simp only [htn] at hstep ⊢
          by_cases hu : env.updateFails m.tableName m.name
          · simp [hu] at hstep ⊢
            exact hstep
          · simp only [hu, Bool.false_eq_true, if_false] at hstep
            cases hstep

lemma map_id_of_eq {α : Type} (l : List α) (f : α → α) (h : ∀ x ∈ l, f x = x) :
    l.map f = l := by
  induction l with
  | nil => rfl
  | cons a t ih => simp [h a (by simp), ih (fun x hx => h x (by simp [hx]))]

lemma keyBeq_false (x y : Measure) (h : mkey x ≠ mkey y) :
    (x.tableName == y.tableName && x.name == y.name) = false := by
  simp only [mkey, ne_eq, Prod.mk.injEq, not_and] at h
  rw [Bool.eq_false_iff]
  intro hc
  rw [Bool.and_eq_true, beq_iff_eq, beq_iff_eq] at hc
  exact h hc.1 hc.2

/-- Effect of one server update on a key-distinct measure list. -/
lemma applyUpdate_split (s : Store) (pre rest : List Measure) (m0 : Measure)
    (d df : String) (ann : List Annot)
    (hs : s.measures = pre ++ m0 :: rest)
    (hd : KeyedDistinct s.measures) :
    (applyUpdate s m0.tableName m0.name d df ann).measures =
      pre ++ { m0 with description := d, displayFolder := df, annots := ann } :: rest := by
  rw [hs] at hd
  unfold KeyedDistinct at hd
  rw [List.pairwise_append] at hd
  obtain ⟨h1, h2, h3⟩ := hd
  rw [List.pairwise_cons] at h2
  unfold applyUpdate
  simp only [hs, List.map_append, List.map_cons]
  congr 1
  · exact map_id_of_eq _ _ (fun x hx => by
      rw [keyBeq_false x m0 (h3 x hx m0 (by simp))]
      rfl)
  · congr 1
    · simp
    · exact map_id_of_eq _ _ (fun x hx => by
        rw [keyBeq_false x m0 (Ne.symm (h2.1 x hx))]
        rfl)

/-- Replacing one element by a same-key element preserves key
distinctness. -/
lemma keyedDistinct_replace (pre rest : List Measure) (m0 m1 : Measure)
    (hk : mkey m1 = mkey m0) (hd : KeyedDistinct (pre ++ m0 :: rest)) :
    KeyedDistinct (pre ++ m1 :: rest) := by
  unfold KeyedDistinct at hd ⊢
  rw [List.pairwise_append] at hd ⊢
  obtain ⟨h1, h2, h3⟩ := hd
  rw [List.pairwise_cons] at h2
  refine ⟨h1, ?_, ?_⟩
  · rw [List.pairwise_cons]
    exact ⟨fun b hb => by rw [hk]; exact h2.1 b hb, h2.2⟩
  · intro a ha b hb
    rcases List.mem_cons.mp hb with rfl | hbr
    · rw [hk]
      exact h3 a ha m0 (by simp)
    · exact h3 a ha b (by simp [hbr])

/-- A loop iteration over an already-documented measure does nothing. -/
lemma docLoop_cons_skip (env : Env) (m : Measure) (rest : List Measure) (w : World)
    (acc : List (String × String)) (hm : ¬ m.description = "") :
    docLoop env (m :: rest) w acc = docLoop env rest w acc := by
  conv_lhs => rw [docLoop]
  simp [hm]

/-- The first failing undocumented measure's exception escapes the loop. -/
lemma docLoop_first_err (env : Env) :
    ∀ (t1 : List Measure) (mk : Measure) (t2 pre : List Measure) (w : World)
      (acc : List (String × String)) (e : Err),
      w.store.measures = pre ++ (t1 ++ mk :: t2) →
      KeyedDistinct w.store.measures →
      (∀ m ∈ t1, m.description = "" → (stepRes env m).isOk = true) →
      mk.description = "" →
      stepRes env mk = Except.error e →
      (docLoop env (t1 ++ mk :: t2) w acc).2 = Except.error e := by
  intro t1
  induction t1 with
  | nil =>
    intro mk t2 pre w acc e hsplit hdist hok hmk hfail
    have hmem : mk ∈ w.store.measures := by rw [hsplit]; simp
    exact docLoop_cons_err env mk t2 w acc e (by simp [hmk])
      (lookupMeasure_self _ _ hdist hmem) hfail
  | cons m0 t1' ih =>
    intro mk t2 pre w acc e hsplit hdist hok hmk hfail
    have hok' : ∀ m ∈ t1', m.description = "" → (stepRes env m).isOk = true :=
      fun m hm hdm => hok m (by simp [hm]) hdm
    rw [List.cons_append]
    by_cases hm0 : m0.description = ""
    · have hstep0 : (stepRes env m0).isOk = true := hok m0 (by simp) hm0
      obtain ⟨d, df, tn, hstep⟩ : ∃ d df tn, stepRes env m0 = Except.ok (d, df, tn) := by
        cases h : stepRes env m0 with
        | error e0 => rw [h] at hstep0; simp [Except.isOk, Except.toBool] at hstep0
        | ok r => obtain ⟨d, df, tn⟩ := r; exact ⟨d, df, tn, rfl⟩
      have hmem : m0 ∈ w.store.measures := by rw [hsplit]; simp
      have hsplit0 : w.store.measures = pre ++ m0 :: (t1' ++ mk :: t2) := by
        rw [hsplit]; simp
      rw [docLoop_cons_ok env m0 (t1' ++ mk :: t2) w acc d df tn (by simp [hm0])
        (lookupMeasure_self _ _ hdist hmem) hstep]
      have hnew : (stepWorld w m0 d df tn).store.measures =
          pre ++ (docMeasure m0 d df tn :: (t1' ++ mk :: t2)) :=
        applyUpdate_split w.store pre (t1' ++ mk :: t2) m0 d df _ hsplit0 hdist
      apply ih mk t2 (pre ++ [docMeasure m0 d df tn]) (stepWorld w m0 d df tn)
        (acc ++ [(m0.name, d)]) e ?_ ?_ hok' hmk hfail
      · rw [hnew]; simp
      · rw [hnew]
        have hd0 : KeyedDistinct (pre ++ m0 :: (t1' ++ mk :: t2)) := hsplit0 ▸ hdist
        exact keyedDistinct_replace pre (t1' ++ mk :: t2) m0 (docMeasure m0 d df tn) rfl hd0
    · rw [docLoop_cons_skip env m0 (t1' ++ mk :: t2) w acc hm0]
      exact ih mk t2 (pre ++ [m0]) w acc e (by rw [hsplit]; simp) hdist hok' hmk hfail

/-- When every undocumented measure's pass succeeds, the loop returns
exactly the undocumented measures (in order, each once) and the final
store is the pointwise-documented original list. -/
lemma docLoop_full_ok (env : Env) :
    ∀ (todo pre : List Measure) (w : World) (acc : List (String × String)),
      w.store.measures = pre ++ todo →
      KeyedDistinct w.store.measures →
      (∀ m ∈ todo, m.description = "" → (stepRes env m).isOk = true) →
      (docLoop env todo w acc).2 = Except.ok
        (acc ++ (todo.filter (fun m => m.description == "")).map (fun m => (m.name, descOf env m)))
      ∧ (docLoop env todo w acc).1.store.measures = pre ++ todo.map (docIfUndoc env) := by
  intro todo
  induction todo with
  | nil =>
    intro pre w acc hsplit hdist hok
    constructor
    · simp [docLoop]
    · simp [docLoop, hsplit]
  | cons m0 rest ih =>
    intro pre w acc hsplit hdist hok
    have hok' : ∀ m ∈ rest, m.description = "" → (stepRes env m).isOk = true :=
      fun m hm hdm => hok m (by simp [hm]) hdm
    by_cases hm0 : m0.description = ""
    · have hstep0 : (stepRes env m0).isOk = true := hok m0 (by simp) hm0
      obtain ⟨d, df, tn, hstep⟩ : ∃ d df tn, stepRes env m0 = Except.ok (d, df, tn) := by
        cases h : stepRes env m0 with
        | error e0 => rw [h] at hstep0; simp [Except.isOk, Except.toBool] at hstep0
        | ok r => obtain ⟨d, df, tn⟩ := r; exact ⟨d, df, tn, rfl⟩
      have hmem : m0 ∈ w.store.measures := by rw [hsplit]; simp
      have hsplit0 : w.store.measures = pre ++ m0 :: rest := hsplit
      rw [docLoop_cons_ok env m0 rest w acc d df tn (by simp [hm0])
        (lookupMeasure_self _ _ hdist hmem) hstep]
      have hnew : (stepWorld w m0 d df tn).store.measures =
          pre ++ (docMeasure m0 d df tn :: rest) :=
        applyUpdate_split w.store pre rest m0 d df _ hsplit0 hdist
      have hd0 : KeyedDistinct (pre ++ m0 :: rest) := hsplit0 ▸ hdist
      have hdn : KeyedDistinct (stepWorld w m0 d df tn).store.measures := by
        rw [hnew]
        exact keyedDistinct_replace pre rest m0 (docMeasure m0 d df tn) rfl hd0
      obtain ⟨ih1, ih2⟩ := ih (pre ++ [docMeasure m0 d df tn]) (stepWorld w m0 d df tn)
        (acc ++ [(m0.name, d)]) (by rw [hnew]; simp) hdn hok'
      have hdesc : descOf env m0 = d := by
        unfold descOf
        rw [hstep]
      constructor
      · rw [ih1]
        simp [List.filter_cons, hm0, hdesc]
      · rw [ih2]
        have hdoc : docIfUndoc env m0 = docMeasure m0 d df tn := by
          unfold docIfUndoc docMeasure
          simp [hm0, hstep]
        simp [hdoc]
    · rw [docLoop_cons_skip env m0 rest w acc hm0]
      obtain ⟨ih1, ih2⟩ := ih (pre ++ [m0]) w acc (by rw [hsplit]; simp) hdist hok'
      constructor
      · rw [ih1]
        simp [List.filter_cons, hm0]
      · rw [ih2]
        have hdoc : docIfUndoc env m0 = m0 := by
          unfold docIfUndoc
          simp [hm0]
        simp [hdoc]

/-- The loop does nothing when every listed measure is documented. -/
lemma docLoop_all_done (env : Env) :
    ∀ (todo : List Measure) (w : World) (acc : List (String × String)),
      (∀ m ∈ todo, ¬ m.description = "") →
      docLoop env todo w acc = (w, Except.ok acc) := by
  intro todo
  induction todo with
  | nil => intro w acc _; rw [docLoop]
  | cons m t ih =>
    intro w acc h
    rw [docLoop_cons_skip env m t w acc (h m (by simp))]
    exact ih w acc (fun x hx => h x (by simp [hx]))

/-- A run over a fully documented store lists the measures and does
nothing else. -/
lemma auto_document_all_done (env : Env) (w : World)
    (h : ∀ m ∈ w.store.measures, ¬ m.description = "") :
    auto_document_measures env w
      = (logEv w (Ev.callTool "powerbi-model_measure_operations" "List"), Except.ok []) := by
  simp only [auto_document_measures]
  exact docLoop_all_done env _ _ [] h

/-- C1, amended: with no per-entity error handling, the error of the first
failing undocumented entity — carrying the entity reference — propagates
out of `auto_document_measures`; in particular, when exactly one entity
fails, no result set of the other N−1 entities is returned. -/
theorem c1_first_failure_escapes (env : Env) (w : World) (t1 : List Measure)
    (mk : Measure) (t2 : List Measure) (e : Err)
    (hsplit : w.store.measures = t1 ++ mk :: t2)
    (hdist : KeyedDistinct w.store.measures)
    (hok : ∀ m ∈ t1, m.description = "" → (stepRes env m).isOk = true)
    (hmk : mk.description = "")
    (hfail : stepRes env mk = Except.error e) :
    (auto_document_measures env w).2 = Except.error e := by
  simp only [auto_document_measures]
  have h2 : (logEv w (Ev.callTool "powerbi-model_measure_operations" "List")).store.measures
      = t1 ++ mk :: t2 := hsplit
  rw [h2]
  exact docLoop_first_err env t1 mk t2 [] (logEv w (Ev.callTool "powerbi-model_measure_operations" "List"))
    [] e h2 hdist hok hmk hfail

/-- Witness for C1's amended theorem at the two-measure scenario. -/
theorem c1_witness :
    (auto_document_measures env1 w1c).2 = Except.error (Err.updateError "Sales" "M1") :=
  c1_first_failure_escapes env1 w1c [] ⟨"Sales", "M1", "", "", "SUM(x)", []⟩
    [⟨"Sales", "M2", "", "", "SUM(y)", []⟩] (Err.updateError "Sales" "M1")
    rfl (by unfold KeyedDistinct; decide) (by intro m hm; cases hm) rfl rfl

/-- C3, amended: an entity with a non-empty description is skipped without
fetch, analysis or update.  Provided every undocumented entity's pass
succeeds with a non-empty generated description, the first run documents
exactly the previously-undocumented entities, each once and in order, and
a second run against the resulting state documents zero entities, emitting
only the List call. -/
theorem c3_idempotent_when_nonempty (env : Env) (w : World)
    (hdist : KeyedDistinct w.store.measures)
    (hok : ∀ m ∈ w.store.measures, m.description = "" →
      ∃ d df tn, stepRes env m = Except.ok (d, df, tn) ∧ d ≠ "") :
    (auto_document_measures env w).2 = Except.ok
      ((w.store.measures.filter (fun m => m.description == "")).map
        (fun m => (m.name, descOf env m)))
    ∧ (auto_document_measures env ((auto_document_measures env w).1)).2 = Except.ok []
    ∧ (auto_document_measures env ((auto_document_measures env w).1)).1.events
        = (auto_document_measures env w).1.events
            ++ [Ev.callTool "powerbi-model_measure_operations" "List"] := by
  have hok1 : ∀ m ∈ w.store.measures, m.description = "" → (stepRes env m).isOk = true := by
    intro m hm hdm
    obtain ⟨d, df, tn, hs, _⟩ := hok m hm hdm
    rw [hs]
    rfl
  have hr := docLoop_full_ok env w.store.measures []
    (logEv w (Ev.callTool "powerbi-model_measure_operations" "List")) [] (by simp [logEv]) hdist hok1
  have e1 : (auto_document_measures env w).2
      = (docLoop env w.store.measures
          (logEv w (Ev.callTool "powerbi-model_measure_operations" "List")) []).2 := rfl
  have e2 : (auto_document_measures env w).1
      = (docLoop env w.store.measures
          (logEv w (Ev.callTool "powerbi-model_measure_operations" "List")) []).1 := rfl
  have hall : ∀ m ∈ (auto_document_measures env w).1.store.measures, ¬ m.description = "" := by
    intro m hm
    rw [e2, hr.2] at hm
    simp only [List.nil_append, List.mem_map] at hm
    obtain ⟨m0, hm0, rfl⟩ := hm
    by_cases h0 : m0.description = ""
    · obtain ⟨d, df, tn, hs, hdne⟩ := hok m0 hm0 h0
      unfold docIfUndoc
      simp [h0, hs]
      exact hdne
    · unfold docIfUndoc
      simp [h0]
  refine ⟨?_, ?_, ?_⟩
  · rw [e1]
    simpa using hr.1
  · rw [auto_document_all_done env _ hall]
  · rw [auto_document_all_done env _ hall]
    rfl

/-- Witness for C3's amended theorem: one documented and one undocumented
measure, a non-empty generated description. -/
theorem c3_witness :
    (auto_document_measures env3w w3w).2 = Except.ok
      ((w3w.store.measures.filter (fun m => m.description == "")).map
        (fun m => (m.name, descOf env3w m)))
    ∧ (auto_document_measures env3w ((auto_document_measures env3w w3w).1)).2 = Except.ok []
    ∧ (auto_document_measures env3w ((auto_document_measures env3w w3w).1)).1.events
        = (auto_document_measures env3w w3w).1.events
            ++ [Ev.callTool "powerbi-model_measure_operations" "List"] :=
  c3_idempotent_when_nonempty env3w w3w (by unfold KeyedDistinct; decide)
    (by
      intro m hm hdm
      have hm1 : m = ⟨"Sales", "M0", "kept", "", "SUM(z)", []⟩
          ∨ m = ⟨"Sales", "M1", "", "", "SUM(x)", []⟩ := by
        simpa [w3w, baseWorld] using hm
      rcases hm1 with rfl | rfl
      · exact absurd hdm (by decide)
      · exact ⟨"D", "F", "T", rfl, by decide⟩)

/-- C6: for every run in which the computed diff is empty,
`create_backup_with_changelog` returns nothing and leaves the world — in
particular the filesystem — completely untouched: no backup directory, no
changelog, no clock read. -/
theorem c6_empty_diff_short_circuit (env : Env) (w : World)
    (h : env.diffFn w.git.headM1 w.git.headFiles = "") :
    create_backup_with_changelog env w = (w, Except.ok none) := by
  unfold create_backup_with_changelog
  simp [h]

/-- Witness for C6 at a concrete empty-diff run. -/
theorem c6_witness : create_backup_with_changelog env6 w6 = (w6, Except.ok none) :=
  c6_empty_diff_short_circuit env6 w6 rfl

/-- C1, counterexample: with two undocumented measures of which exactly the
first one's Update call fails, `auto_document_measures` raises the update
error instead of returning the one successfully documented measure — the
exception escapes and no result set at all is produced. -/
theorem c1_counterexample :
    (auto_document_measures env1 w1c).2 = Except.error (Err.updateError "Sales" "M1")
    ∧ ¬ ∃ res : List (String × String), (auto_document_measures env1 w1c).2 = Except.ok res := by
  refine ⟨rfl, ?_⟩
  rintro ⟨res, h⟩
  rw [show (auto_document_measures env1 w1c).2
      = Except.error (Err.updateError "Sales" "M1") from rfl] at h
  cases h

/-- C3, counterexample: when the reasoning service returns an empty
description, the first run writes it, the measure stays undocumented, and
the second run against the resulting state documents it again — it does not
document zero entities. -/
theorem c3_counterexample :
    (auto_document_measures env3 w3c).2 = Except.ok [("M1", "")]
    ∧ (auto_document_measures env3 (auto_document_measures env3 w3c).1).2
        = Except.ok [("M1", "")]
    ∧ ([("M1", "")] : List (String × String)) ≠ [] := by
  refine ⟨rfl, rfl, by decide⟩

/-- C4: the change set the audit pipeline analyzes is not the diff
produced by this run's mutation and export.  Concretely: the two most
recent commits are identical, so the code sees an empty diff and produces
no snapshot (and no backup directory), although the run's documentation
pass did change the exported definition tree, so the spec-level change set
is non-empty. -/
theorem c4_diff_is_previous_commit :
    (main env4 w4).2 = Except.ok none
    ∧ env4.diffFn w4.git.headM1 w4.git.headFiles = ""
    ∧ spec_changeSet env4 w4 (main env4 w4).1 = "delta"
    ∧ (main env4 w4).1.fsys.dirs = [] := by
  refine ⟨rfl, rfl, rfl, rfl⟩

/-- C7: in a successful one-measure run, both session-close events fire
when `connect_to_model` returns — before the List, Get, Update and export
tool calls — so the session is not open through the documentation phase
and the export; it is used after being closed. -/
theorem c7_session_closed_before_use :
    (main env7 w7).1.events =
      [Ev.openTransport, Ev.openSession, Ev.initSession,
       Ev.callTool "powerbi-model_connection_operations" "ConnectFolder",
       Ev.closeSession, Ev.closeTransport,
       Ev.callTool "powerbi-model_measure_operations" "List",
       Ev.callTool "powerbi-model_measure_operations" "Get",
       Ev.callTool "powerbi-model_measure_operations" "Update",
       Ev.callTool "powerbi-model_database_operations" "ExportToTmdlFolder"]
    ∧ usesSessionAfterClose (main env7 w7).1.events = true := by
  refine ⟨rfl, rfl⟩

/-- The documentation loop never touches the version-control layer. -/
lemma docLoop_gitOps (env : Env) :
    ∀ (todo : List Measure) (w : World) (acc : List (String × String)),
      (docLoop env todo w acc).1.gitOps = w.gitOps := by
  intro todo
  induction todo with
  | nil => intro w acc; rw [docLoop]
  | cons m rest ih =>
    intro w acc
    conv_lhs => rw [docLoop]
    dsimp only
    repeat' split
    all_goals first | rfl | (rw [ih]; try rfl)

lemma auto_document_gitOps (env : Env) (w : World) :
    (auto_document_measures env w).1.gitOps = w.gitOps := by
  simp only [auto_document_measures]
  rw [docLoop_gitOps]
  rfl

lemma exportModel_gitOps (env : Env) (w : World) :
    (exportModel env w).gitOps = w.gitOps := rfl

lemma connect_gitOps (w : World) : (connect_to_model w).gitOps = w.gitOps := rfl

/-- Backup creation never touches the version-control layer. -/
lemma create_backup_gitOps (env : Env) (w : World) :
    (create_backup_with_changelog env w).1.gitOps = w.gitOps := by
  simp only [create_backup_with_changelog]
  repeat' split
  all_goals rfl

/-- C2, amended: `main` invokes staging and commit unconditionally after
every completed backup phase — exactly one add and one commit per
successful run, with whatever `create_backup_with_changelog` returned
(possibly no message at all) as the commit message; the invocation is not
gated on a snapshot having been produced. -/
theorem c2_commit_unconditional (env : Env) (w : World) (cm : Option String)
    (h : (main env w).2 = Except.ok cm) :
    (main env w).1.gitOps = w.gitOps ++ [GitOp.add ".", GitOp.commit cm] := by
  simp only [main] at h ⊢
  cases hd : (auto_document_measures env (connect_to_model w)).2 with
  | error e =>
    rw [hd] at h
    exact absurd h (by simp)
  | ok documented =>
    rw [hd] at h
    cases hc : (create_backup_with_changelog env
        (exportModel env (auto_document_measures env (connect_to_model w)).1)).2 with
    | error e =>
      rw [hc] at h
      exact absurd h (by simp)
    | ok cm2 =>
      rw [hc] at h
      have hcm : cm2 = cm := by simpa using h
      subst hcm
      show (create_backup_with_changelog env
          (exportModel env (auto_document_measures env (connect_to_model w)).1)).1.gitOps
            ++ [GitOp.add ".", GitOp.commit cm2]
          = w.gitOps ++ [GitOp.add ".", GitOp.commit cm2]
      rw [create_backup_gitOps, exportModel_gitOps, auto_document_gitOps, connect_gitOps]

/-- Witness for C2's amended theorem at the empty-diff scenario. -/
theorem c2_witness :
    (main env2 w2c).1.gitOps = w2c.gitOps ++ [GitOp.add ".", GitOp.commit none] :=
  c2_commit_unconditional env2 w2c none rfl

/-- C2, counterexample: in a run whose diff is empty,
`create_backup_with_changelog` returns no snapshot, yet `main` still
stages everything and invokes commit (with no message). -/
theorem c2_counterexample :
    (main env2 w2c).2 = Except.ok none
    ∧ (main env2 w2c).1.gitOps = [GitOp.add ".", GitOp.commit none] := by
  refine ⟨rfl, rfl⟩

/-- C5, counterexample: a reply that is valid JSON but lacks the expected
keys display_folder and issues is accepted by `analyze_measure_with_ai`
without any parse error, and the controller then silently defaults the
missing display_folder to the empty string in the update it writes. -/
theorem c5_counterexample :
    analyze_measure_with_ai env5 "M1" "SUM(x)" = Except.ok a5
    ∧ getField a5 "display_folder" = none
    ∧ getField a5 "issues" = none
    ∧ (auto_document_measures env5 w5).2 = Except.ok [("M1", "Total sales")]
    ∧ (auto_document_measures env5 w5).1.store.measures = [m5doc] := by
  refine ⟨rfl, rfl, rfl, rfl, rfl⟩

/-- C8, counterexample: a run whose capture timestamp falls in the same
second as an existing snapshot reuses that snapshot directory and
overwrites its changelog — snapshot identity is not unique per run and an
existing snapshot is mutated. -/
theorem c8_counterexample :
    fsLookup w8.fsys (d8 ++ ["CHANGELOG.md"]) = some "OLD"
    ∧ w8.fsys.dirs = [d8]
    ∧ fsLookup (create_backup_with_changelog env8 w8).1.fsys (d8 ++ ["CHANGELOG.md"])
        = some (changelogDoc t0 "NEWCL" "I" "dd")
    ∧ changelogDoc t0 "NEWCL" "I" "dd" ≠ "OLD" := by
  refine ⟨rfl, rfl, rfl, by decide⟩

lemma fsLookup_fsSet_same (fs : FileSys) (p : FPath) (c : String) :
    fsLookup (fsSet fs p c) p = some c := by
  simp [fsLookup, fsSet]

lemma fsLookup_fsSet_ne (fs : FileSys) (p q : FPath) (c : String) (h : q ≠ p) :
    fsLookup (fsSet fs p c) q = fsLookup fs q := by
  unfold fsLookup fsSet
  rw [List.find?_cons_of_neg]
  simp only [beq_iff_eq]
  exact fun hh => h hh.symm

/-- Looking up a path no write of the fold targets. -/
lemma foldl_write_lookup_notmem (F : FPath → FPath) (G : FPath → String) :
    ∀ (ks : List FPath) (acc : FileSys) (q : FPath),
      (∀ k ∈ ks, F k ≠ q) →
      fsLookup (ks.foldl (fun a k => fsSet a (F k) (G k)) acc) q = fsLookup acc q := by
  intro ks
  induction ks with
  | nil => intro acc q _; rfl
  | cons k t ih =>
    intro acc q h
    simp only [List.foldl_cons]
    rw [ih _ q (fun x hx => h x (by simp [hx]))]
    exact fsLookup_fsSet_ne acc (F k) q (G k) (Ne.symm (h k (by simp)))

/-- Looking up the target of one write of the fold, when targets are
pairwise distinct. -/
lemma foldl_write_lookup_mem (F : FPath → FPath) (G : FPath → String) :
    ∀ (ks : List FPath) (acc : FileSys) (k : FPath),
      k ∈ ks → ks.Nodup →
      (∀ a ∈ ks, ∀ b ∈ ks, F a = F b → a = b) →
      fsLookup (ks.foldl (fun a x => fsSet a (F x) (G x)) acc) (F k) = some (G k) := by
  intro ks
  induction ks with
  | nil => intro acc k hk _ _; cases hk
  | cons k0 t ih =>
    intro acc k hk hnd hinj
    simp only [List.foldl_cons]
    rcases List.mem_cons.mp hk with rfl | hkt
    · have hk0nt : k ∉ t := (List.nodup_cons.mp hnd).1
      rw [foldl_write_lookup_notmem F G t _ (F k) ?_]
      · exact fsLookup_fsSet_same acc (F k) (G k)
      · intro x hx hFx
        exact hk0nt (by rwa [hinj x (by simp [hx]) k (by simp) hFx] at hx)
    · exact ih _ k hkt (List.nodup_cons.mp hnd).2
        (fun a ha b hb => hinj a (by simp [ha]) b (by simp [hb]))

/-- A path present after the fold was either written by it or present
before. -/
lemma foldl_write_lookup_cases (F : FPath → FPath) (G : FPath → String) :
    ∀ (ks : List FPath) (acc : FileSys) (q : FPath),
      fsLookup (ks.foldl (fun a x => fsSet a (F x) (G x)) acc) q ≠ none →
      (∃ k ∈ ks, F k = q) ∨ fsLookup acc q ≠ none := by
  intro ks
  induction ks with
  | nil => intro acc q h; exact Or.inr h
  | cons k0 t ih =>
    intro acc q h
    simp only [List.foldl_cons] at h
    rcases ih _ q h with ⟨k, hk, hFk⟩ | hacc
    · exact Or.inl ⟨k, by simp [hk], hFk⟩
    · by_cases hq : q = F k0
      · exact Or.inl ⟨k0, by simp, hq.symm⟩
      · rw [fsLookup_fsSet_ne acc (F k0) q (G k0) hq] at hacc
        exact Or.inr hacc

lemma foldl_write_dirs (F : FPath → FPath) (G : FPath → String) :
    ∀ (ks : List FPath) (acc : FileSys),
      (ks.foldl (fun a x => fsSet a (F x) (G x)) acc).dirs = acc.dirs := by
  intro ks
  induction ks with
  | nil => intro acc; rfl
  | cons k0 t ih =>
    intro acc
    simp only [List.foldl_cons]
    rw [ih]
    rfl

/-- Membership in the key set a tree copy reads. -/
lemma treeKeys_spec (fs : FileSys) (src k : FPath) (hk : k ∈ treeKeys fs src) :
    src <+: k ∧ fsLookup fs k ≠ none := by
  unfold treeKeys at hk
  rw [List.mem_dedup, List.mem_filter] at hk
  obtain ⟨hmem, hpre⟩ := hk
  rw [List.isPrefixOf_iff_prefix] at hpre
  refine ⟨hpre, ?_⟩
  rw [List.mem_map] at hmem
  obtain ⟨e, he, rfl⟩ := hmem
  unfold fsLookup
  cases hfind : fs.files.find? (fun x => x.1 == e.1) with
  | none =>
    have : (fs.files.find? (fun x => x.1 == e.1)).isSome := by
      rw [List.find?_isSome]
      exact ⟨e, he, by simp⟩
    rw [hfind] at this
    cases this
  | some e2 => simp

lemma fsLookup_some_mem_treeKeys (fs : FileSys) (src k : FPath) (c : String)
    (hpre : src <+: k) (hlook : fsLookup fs k = some c) : k ∈ treeKeys fs src := by
  unfold treeKeys
  rw [List.mem_dedup, List.mem_filter]
  constructor
  · unfold fsLookup at hlook
    cases hfind : fs.files.find? (fun e => e.1 == k) with
    | none => rw [hfind] at hlook; cases hlook
    | some e =>
      have hmem := List.mem_of_find?_eq_some hfind
      have hkey : e.1 = k := by
        have := List.find?_some hfind
        simpa [beq_iff_eq] using this
      rw [List.mem_map]
      exact ⟨e, hmem, hkey⟩
  · rw [List.isPrefixOf_iff_prefix]
    exact hpre

/-- The destination paths of a tree copy are injective in the source
path. -/
lemma copy_dst_inj (fs : FileSys) (src dst : FPath) :
    ∀ a ∈ treeKeys fs src, ∀ b ∈ treeKeys fs src,
      dst ++ a.drop src.length = dst ++ b.drop src.length → a = b := by
  intro a ha b hb hab
  obtain ⟨ra, hra⟩ := (treeKeys_spec fs src a ha).1
  obtain ⟨rb, hrb⟩ := (treeKeys_spec fs src b hb).1
  have h1 : a.drop src.length = ra := by rw [← hra, List.drop_left]
  have h2 : b.drop src.length = rb := by rw [← hrb, List.drop_left]
  rw [h1, h2] at hab
  have := List.append_cancel_left hab
  rw [← hra, ← hrb, this]

/-- Every source file is byte-identical in the copy. -/
lemma copytree_keeps (fs : FileSys) (src dst k : FPath) (c : String)
    (hpre : src <+: k) (hlook : fsLookup fs k = some c) :
    fsLookup (copytree fs src dst) (dst ++ k.drop src.length) = some c := by
  unfold copytree
  have hmem := fsLookup_some_mem_treeKeys fs src k c hpre hlook
  have := foldl_write_lookup_mem (fun x => dst ++ x.drop src.length)
    (fun x => (fsLookup fs x).getD "") (treeKeys fs src) (mkdirP fs dst) k hmem
    (List.nodup_dedup _) (copy_dst_inj fs src dst)
  rw [this]
  simp [hlook]

/-- A tree copy writes only under its destination. -/
lemma copytree_lookup_outside (fs : FileSys) (src dst q : FPath)
    (h : ∀ rel, dst ++ rel ≠ q) :
    fsLookup (copytree fs src dst) q = fsLookup fs q := by
  unfold copytree
  rw [foldl_write_lookup_notmem _ _ _ _ q (fun k _ => h (k.drop src.length))]
  rfl

/-- Splitting on the branches of `create_backup_with_changelog`: a
successful backup creation produces exactly `finalWorld` and the commit
message of the analysis. -/
lemma create_backup_success_eq (env : Env) (w : World) (fields : List (String × String))
    (cl imp cm : String)
    (hdiff : env.diffFn w.git.headM1 w.git.headFiles ≠ "")
    (hresp : env.svcChange (changePrompt (env.diffFn w.git.headM1 w.git.headFiles))
      = SvcResp.json fields)
    (hcl : getField fields "changelog" = some cl)
    (himp : getField fields "impact" = some imp)
    (hcm : getField fields "commit_message" = some cm) :
    create_backup_with_changelog env w = (finalWorld env w cl imp, Except.ok (some cm)) := by
  simp only [create_backup_with_changelog, if_neg hdiff]
  simp only [analyze_tmdl_changes, hresp, jsonLoads]
  simp only [getItem, hcl, himp, hcm]
  rfl

lemma str_empty_append (s : String) : "" ++ s = s := rfl

/-- Sibling entries of a directory differ whatever lies below them. -/
lemma append_singleton_ne (base : FPath) (x y : String) (r : FPath) (hxy : x ≠ y) :
    (base ++ [x]) ++ r ≠ base ++ [y] := by
  intro h
  rw [List.append_assoc] at h
  have h2 := List.append_cancel_left h
  injection h2 with h3 _
  exact hxy h3

/-- The changelog document of a successful backup: the chunk sequence in
program order, the header timestamp taken from the second clock read. -/
lemma finalFS_changelog (env : Env) (w : World) (cl imp : String) :
    fsLookup (finalFS env w cl imp)
        ((env.cwd ++ ["backups", fmtCompact (w.clock w.clockPos)]) ++ ["CHANGELOG.md"])
      = some (changelogDoc (w.clock (w.clockPos + 1)) cl imp
          (env.diffFn w.git.headM1 w.git.headFiles)) := by
  simp only [finalFS, fsAppendFile, fsLookup_fsSet_same, Option.getD_some]
  simp [changelogDoc, str_empty_append, String.append_assoc]
  rw [← String.append_assoc "\n\n## Technical Details\n\n" "```\n"]
  simp [String.append_assoc]

/-- A backup creation writes nothing outside its own snapshot directory. -/
lemma finalFS_outside (env : Env) (w : World) (cl imp : String) (q : FPath)
    (hq : ¬ ((env.cwd ++ ["backups", fmtCompact (w.clock w.clockPos)]) <+: q)) :
    fsLookup (finalFS env w cl imp) q = fsLookup w.fsys q := by
  have hne : q ≠ (env.cwd ++ ["backups", fmtCompact (w.clock w.clockPos)]) ++ ["CHANGELOG.md"] := by
    intro hh
    apply hq
    rw [hh]
    exact List.prefix_append _ _
  simp only [finalFS, fsAppendFile]
  repeat rw [fsLookup_fsSet_ne _ _ _ _ hne]
  rw [copytree_lookup_outside _ _ _ _ ?_]
  · rfl
  · intro rel hh
    apply hq
    rw [← hh, List.append_assoc]
    exact List.prefix_append _ _

/-- Every file of the copied source tree is byte-identical in the final
snapshot. -/
lemma finalFS_copied (env : Env) (w : World) (cl imp : String) (k : FPath) (c : String)
    (hpre : (env.cwd ++ ["Dataset.SemanticModel", "definition"]) <+: k)
    (hlook : fsLookup w.fsys k = some c) :
    fsLookup (finalFS env w cl imp)
      (((env.cwd ++ ["backups", fmtCompact (w.clock w.clockPos)]) ++ ["definition"])
        ++ k.drop (env.cwd ++ ["Dataset.SemanticModel", "definition"]).length) = some c := by
  have hne : ((env.cwd ++ ["backups", fmtCompact (w.clock w.clockPos)]) ++ ["definition"])
        ++ k.drop (env.cwd ++ ["Dataset.SemanticModel", "definition"]).length
      ≠ (env.cwd ++ ["backups", fmtCompact (w.clock w.clockPos)]) ++ ["CHANGELOG.md"] :=
    append_singleton_ne _ "definition" "CHANGELOG.md" _ (by decide)
  simp only [finalFS, fsAppendFile]
  repeat rw [fsLookup_fsSet_ne _ _ _ _ hne]
  exact copytree_keeps (mkdirP w.fsys _) _ _ k c hpre hlook

/-- Everything under the snapshot directory of a fresh successful backup
is either the changelog or a copied source file (or was already there). -/
lemma finalFS_under_cases (env : Env) (w : World) (cl imp : String) (q : FPath)
    (hsome : fsLookup (finalFS env w cl imp) q ≠ none) :
    q = (env.cwd ++ ["backups", fmtCompact (w.clock w.clockPos)]) ++ ["CHANGELOG.md"]
    ∨ (∃ k, (env.cwd ++ ["Dataset.SemanticModel", "definition"]) <+: k
        ∧ fsLookup w.fsys k ≠ none
        ∧ q = ((env.cwd ++ ["backups", fmtCompact (w.clock w.clockPos)]) ++ ["definition"])
            ++ k.drop (env.cwd ++ ["Dataset.SemanticModel", "definition"]).length)
    ∨ fsLookup w.fsys q ≠ none := by
  by_cases hcl : q = (env.cwd ++ ["backups", fmtCompact (w.clock w.clockPos)]) ++ ["CHANGELOG.md"]
  · exact Or.inl hcl
  · right
    simp only [finalFS, fsAppendFile] at hsome
    repeat rw [fsLookup_fsSet_ne _ _ _ _ hcl] at hsome
    unfold copytree at hsome
    rcases foldl_write_lookup_cases _ _ _ _ _ hsome with ⟨k, hk, hFk⟩ | hacc
    · obtain ⟨hpre, hlk⟩ := treeKeys_spec _ _ _ hk
      exact Or.inl ⟨k, hpre, hlk, hFk.symm⟩
    · exact Or.inr hacc

/-- The directories a successful backup creates: the snapshot directory
and its copied definition subtree. -/
lemma finalFS_dirs (env : Env) (w : World) (cl imp : String) :
    (finalFS env w cl imp).dirs =
      ((env.cwd ++ ["backups", fmtCompact (w.clock w.clockPos)]) ++ ["definition"])
        :: (env.cwd ++ ["backups", fmtCompact (w.clock w.clockPos)]) :: w.fsys.dirs := by
  simp only [finalFS, fsAppendFile, fsSet]
  unfold copytree
  rw [foldl_write_dirs]
  rfl

/-- Backup creation only ever writes beneath its own snapshot directory,
whatever branch it takes. -/
lemma create_backup_fs_outside (env : Env) (w : World) (q : FPath)
    (hq : ¬ ((env.cwd ++ ["backups", fmtCompact (w.clock w.clockPos)]) <+: q)) :
    fsLookup (create_backup_with_changelog env w).1.fsys q = fsLookup w.fsys q := by
  have hne : q ≠ (env.cwd ++ ["backups", fmtCompact (w.clock w.clockPos)]) ++ ["CHANGELOG.md"] := by
    intro hh
    apply hq
    rw [hh]
    exact List.prefix_append _ _
  have hdst : ∀ rel,
      ((env.cwd ++ ["backups", fmtCompact (w.clock w.clockPos)]) ++ ["definition"]) ++ rel ≠ q := by
    intro rel hh
    apply hq
    rw [← hh, List.append_assoc]
    exact List.prefix_append _ _
  simp only [create_backup_with_changelog, now]
  repeat' split
  all_goals first
  | rfl
  | (dsimp only
     simp only [fsAppendFile]
     repeat rw [fsLookup_fsSet_ne _ _ _ _ hne]
     rw [copytree_lookup_outside _ _ _ _ hdst]
     rfl)

/-- C8, amended: snapshot identity is timestamp-derived at second
granularity only.  A backup creation whose capture timestamp formats
differently from an existing snapshot directory's name leaves that
snapshot untouched; but a run whose timestamp formats identically reuses
the existing directory and overwrites its contents (see the
counterexample). -/
theorem c8_distinct_second_no_touch (env : Env) (w : World) (T : String) (q : FPath)
    (hT : fmtCompact (w.clock w.clockPos) ≠ T)
    (hq : (env.cwd ++ ["backups", T]) <+: q) :
    fsLookup (create_backup_with_changelog env w).1.fsys q = fsLookup w.fsys q := by
  apply create_backup_fs_outside
  intro hc
  obtain ⟨r1, hr1⟩ := hq
  obtain ⟨r2, hr2⟩ := hc
  rw [← hr1] at hr2
  rw [List.append_assoc, List.append_assoc] at hr2
  have h2 := List.append_cancel_left hr2
  injection h2 with h3 h4
  injection h4 with h5 _
  exact hT h5

/-- Witness for C8's amended theorem: a snapshot named in a different
second is untouched. -/
theorem c8_witness :
    fsLookup (create_backup_with_changelog env8 w8).1.fsys ["repo", "backups", "X", "CHANGELOG.md"]
      = fsLookup w8.fsys ["repo", "backups", "X", "CHANGELOG.md"] :=
  c8_distinct_second_no_touch env8 w8 "X" ["repo", "backups", "X", "CHANGELOG.md"]
    (by decide) ⟨["CHANGELOG.md"], by decide⟩

/-- C9: for a non-empty diff with a well-formed analysis, backup creation
yields the analysis commit message, creates the timestamp-named snapshot
directory, copies every file of the configured model definition tree
byte-identically beneath it, and writes exactly one changelog whose
sections appear in fixed order (timestamp header, changes summary, impact
assessment, fenced raw diff) — nothing else appears under a fresh
snapshot directory. -/
theorem c9_snapshot_complete (env : Env) (w : World) (fields : List (String × String))
    (cl imp cm : String)
    (hdiff : env.diffFn w.git.headM1 w.git.headFiles ≠ "")
    (hresp : env.svcChange (changePrompt (env.diffFn w.git.headM1 w.git.headFiles))
      = SvcResp.json fields)
    (hcl : getField fields "changelog" = some cl)
    (himp : getField fields "impact" = some imp)
    (hcm : getField fields "commit_message" = some cm)
    (hcwd : env.cwd ++ ["Dataset.SemanticModel"] = modelPathC)
    (hfresh : ∀ q, (env.cwd ++ ["backups", fmtCompact (w.clock w.clockPos)]) <+: q →
      fsLookup w.fsys q = none) :
    (create_backup_with_changelog env w).2 = Except.ok (some cm)
    ∧ (env.cwd ++ ["backups", fmtCompact (w.clock w.clockPos)])
        ∈ (create_backup_with_changelog env w).1.fsys.dirs
    ∧ (∀ k c, (modelPathC ++ ["definition"]) <+: k → fsLookup w.fsys k = some c →
        fsLookup (create_backup_with_changelog env w).1.fsys
          (((env.cwd ++ ["backups", fmtCompact (w.clock w.clockPos)]) ++ ["definition"])
            ++ k.drop (modelPathC ++ ["definition"]).length) = some c)
    ∧ fsLookup (create_backup_with_changelog env w).1.fsys
        ((env.cwd ++ ["backups", fmtCompact (w.clock w.clockPos)]) ++ ["CHANGELOG.md"])
        = some (changelogDoc (w.clock (w.clockPos + 1)) cl imp
            (env.diffFn w.git.headM1 w.git.headFiles))
    ∧ (∀ q, (env.cwd ++ ["backups", fmtCompact (w.clock w.clockPos)]) <+: q →
        fsLookup (create_backup_with_changelog env w).1.fsys q ≠ none →
        q = (env.cwd ++ ["backups", fmtCompact (w.clock w.clockPos)]) ++ ["CHANGELOG.md"]
        ∨ ∃ k, (modelPathC ++ ["definition"]) <+: k ∧ fsLookup w.fsys k ≠ none ∧
            q = ((env.cwd ++ ["backups", fmtCompact (w.clock w.clockPos)]) ++ ["definition"])
              ++ k.drop (modelPathC ++ ["definition"]).length) := by
  have hsrc : env.cwd ++ ["Dataset.SemanticModel", "definition"] = modelPathC ++ ["definition"] := by
    rw [← hcwd]
    simp
  rw [create_backup_success_eq env w fields cl imp cm hdiff hresp hcl himp hcm]
  refine ⟨rfl, ?_, ?_, ?_, ?_⟩
  · show _ ∈ (finalFS env w cl imp).dirs
    rw [finalFS_dirs]
    simp
  · intro k c hk hlk
    rw [← hsrc] at hk ⊢
    exact finalFS_copied env w cl imp k c hk hlk
  · exact finalFS_changelog env w cl imp
  · intro q hq hner
    rcases finalFS_under_cases env w cl imp q hner with h1 | ⟨k, hks, hkn, h2⟩ | hold
    · exact Or.inl h1
    · refine Or.inr ⟨k, ?_, hkn, ?_⟩
      · rw [← hsrc]
        exact hks
      · rw [← hsrc]
        exact h2
    · exact absurd (hfresh q hq) hold

/-- Witness for C9 at the concrete fresh-backup scenario. -/
theorem c9_witness : (create_backup_with_changelog env9 w9).2 = Except.ok (some "CM") :=
  (c9_snapshot_complete env9 w9 [("changelog", "CL"), ("impact", "IM"), ("commit_message", "CM")]
    "CL" "IM" "CM" (by decide) rfl rfl rfl rfl (by decide)
    (by
      intro q hq
      by_cases hqe : srcFile9 = q
      · subst hqe
        exact absurd hq (by decide)
      · show ((([(srcFile9, "contents")] : List (FPath × String)).find?
          (fun e => e.1 == q)).map (fun e => e.2)) = none
        rw [List.find?_cons_of_neg]
        · rfl
        · simp only [beq_iff_eq]
          exact hqe)).1

/-- C10: the snapshot name and the changelog header come from two separate
clock reads (the run consumes two); when both reads yield the same second
the header renders the identity timestamp, and in the concrete
boundary-crossing run the header timestamp differs from the snapshot's
identity timestamp. -/
theorem c10_two_clock_reads :
    (∀ (env : Env) (w : World) (fields : List (String × String)) (cl imp cm : String),
      env.diffFn w.git.headM1 w.git.headFiles ≠ "" →
      env.svcChange (changePrompt (env.diffFn w.git.headM1 w.git.headFiles)) = SvcResp.json fields →
      getField fields "changelog" = some cl →
      getField fields "impact" = some imp →
      getField fields "commit_message" = some cm →
      (create_backup_with_changelog env w).1.clockPos = w.clockPos + 2
      ∧ fsLookup (create_backup_with_changelog env w).1.fsys
          ((env.cwd ++ ["backups", fmtCompact (w.clock w.clockPos)]) ++ ["CHANGELOG.md"])
        = some (changelogDoc (w.clock (w.clockPos + 1)) cl imp
            (env.diffFn w.git.headM1 w.git.headFiles))
      ∧ (w.clock w.clockPos = w.clock (w.clockPos + 1) →
          fsLookup (create_backup_with_changelog env w).1.fsys
            ((env.cwd ++ ["backups", fmtCompact (w.clock w.clockPos)]) ++ ["CHANGELOG.md"])
          = some (changelogDoc (w.clock w.clockPos) cl imp
              (env.diffFn w.git.headM1 w.git.headFiles))))
    ∧ fsLookup (create_backup_with_changelog env10 w10).1.fsys
          ((env10.cwd ++ ["backups", fmtCompact t0]) ++ ["CHANGELOG.md"])
        = some (changelogDoc t1s "NEWCL" "I" "dd")
    ∧ fmtCompact t0 ≠ fmtCompact t1s ∧ fmtHuman t0 ≠ fmtHuman t1s := by
  refine ⟨?_, ?_, by decide, by decide⟩
  · intro env w fields cl imp cm hdiff hresp hcl himp hcm
    rw [create_backup_success_eq env w fields cl imp cm hdiff hresp hcl himp hcm]
    refine ⟨rfl, finalFS_changelog env w cl imp, ?_⟩
    intro hsame
    have hc := finalFS_changelog env w cl imp
    rw [← hsame] at hc
    exact hc
  · rfl

/-- Witness for C10's universal part at a concrete run. -/
theorem c10_witness : (create_backup_with_changelog env9 w9).1.clockPos = w9.clockPos + 2 :=
  (c10_two_clock_reads.1 env9 w9 [("changelog", "CL"), ("impact", "IM"), ("commit_message", "CM")]
    "CL" "IM" "CM" (by decide) rfl rfl rfl rfl).1

/-- C5, amended: the adapters fail with a parse error exactly when the
service reply is not valid JSON — key presence is not validated at the
adapter, which passes any parsed object through unchanged; for the change
adapter a malformed reply aborts `create_backup_with_changelog` before any
filesystem write, while missing keys surface later (a missing
display_folder is silently defaulted, see the counterexample). -/
theorem c5_parse_only_json_level :
    (∀ (env : Env) (measureName daxExpression : String),
      env.svcMeasure (measurePrompt measureName daxExpression) = SvcResp.malformed →
        analyze_measure_with_ai env measureName daxExpression = Except.error Err.parseError)
    ∧ (∀ (env : Env) (measureName daxExpression : String) (fields : List (String × String)),
      env.svcMeasure (measurePrompt measureName daxExpression) = SvcResp.json fields →
        analyze_measure_with_ai env measureName daxExpression = Except.ok fields)
    ∧ (∀ (env : Env) (w : World),
      env.diffFn w.git.headM1 w.git.headFiles ≠ "" →
      env.svcChange (changePrompt (env.diffFn w.git.headM1 w.git.headFiles)) = SvcResp.malformed →
        create_backup_with_changelog env w = (w, Except.error Err.parseError)) := by
  refine ⟨?_, ?_, ?_⟩
  · intro env n d h
    unfold analyze_measure_with_ai
    rw [h]
    rfl
  · intro env n d fields h
    unfold analyze_measure_with_ai
    rw [h]
    rfl
  · intro env w hne hmal
    unfold create_backup_with_changelog
    simp only [if_neg hne]
    unfold analyze_tmdl_changes
    rw [hmal]
    rfl

/-- Witness for C5's amended theorem: the malformed-reply branches at a
concrete input. -/
theorem c5_witness :
    analyze_measure_with_ai env5m "M1" "SUM(x)" = Except.error Err.parseError
    ∧ create_backup_with_changelog env5m w5m = (w5m, Except.error Err.parseError) :=
  ⟨c5_parse_only_json_level.1 env5m "M1" "SUM(x)" rfl,
   c5_parse_only_json_level.2.2 env5m w5m (by decide) rfl⟩

end PBI
